import Mathlib

/-!
Verification development for the vocab trainer's core logic:
the SRS (spaced-repetition) scheduler, the versus-mode finish logic,
and the reverse-mode quiz operations.

Modelling conventions:
- ISO timestamps are modelled as `Int` milliseconds since epoch;
  `addDays` adds whole days (86,400,000 ms) to a timestamp, which models
  the source's `addDays` (calendar `setDate` arithmetic) up to DST shifts.
- `todayStartLocal()` and `new Date()` are modelled as explicit parameters
  (`dayStart`, `nowIso`) threaded into the otherwise pure functions.
- `Math.random()` jitter and array shuffles are modelled as explicit
  parameters (`jit : Nat → Rat`, `shuffle` functions).
- JavaScript exceptions are modelled with `Except JsError`; accessing the
  first character of an empty string (`s[0].toLowerCase()` on `s = ""`)
  raises `JsError.typeError`, and the explicit `throw new Error` in the
  word-selection helpers raises `JsError.insufficientWords`.
- The database unique constraint `UNIQUE(room_id, question_index, user_id)`
  on reverse-mode answers is modelled as an existence check before insert.
-/

namespace Vocab

/-! ## Data model (SRS scheduler, from the main app source) -/

structure LevelConfig where
  id : Int
  name : String
  promoteAfterCorrect : Int
  intervalDays : Int
  deriving DecidableEq

structure AppConfig where
  levels : List LevelConfig
  wrongMakesImmediatelyDue : Bool
  wrongResetsStreak : Bool
  deriving DecidableEq

inductive LastResult where
  | right
  | wrong
  deriving DecidableEq

structure WordItem where
  id : String
  word : String
  hint : String
  definition : String
  createdAt : Int
  updatedAt : Int
  levelId : Int
  streakCorrect : Int
  totalRight : Int
  totalWrong : Int
  lastReviewedAt : Option Int
  dueAt : Int
  lastResult : Option LastResult
  deriving DecidableEq

/-- Model of `clampInt(n, min, max)` from the source (inputs already integral here). -/
def clampInt (n lo hi : Int) : Int := min hi (max lo n)

def msPerDay : Int := 86400000

/-- Model of `addDays(date, days)`: advance a timestamp by whole days. -/
def addDays (date : Int) (days : Int) : Int := date + days * msPerDay

/-- Model of `defaultConfig` from the source (sound settings omitted; the scheduler
never reads them and `normalizeConfig` drops them). -/
def defaultConfig : AppConfig :=
  { levels :=
      [ { id := 1, name := "Level 1", promoteAfterCorrect := 3, intervalDays := 1 }
      , { id := 2, name := "Level 2", promoteAfterCorrect := 2, intervalDays := 7 }
      , { id := 3, name := "Level 3", promoteAfterCorrect := 1, intervalDays := 30 } ]
    wrongMakesImmediatelyDue := true
    wrongResetsStreak := true }

/-- Model of `maxLevel(cfg)`: `ids.length ? Math.max(...ids) : 1`. -/
def maxLevel (cfg : AppConfig) : Int :=
  match cfg.levels.map (fun l => l.id) with
  | [] => 1
  | i :: is => is.foldl max i

/-- The source's repeated `cfg.levels.map(l => l.id).sort((a, b) => a - b)`. -/
def sortedIds (cfg : AppConfig) : List Int :=
  (cfg.levels.map (fun l => l.id)).insertionSort (fun a b => a ≤ b)

/-- Model of `nextHigherLevelId(current, cfg)`: first sorted id strictly greater than
`current`, else `sorted[sorted.length - 1] ?? current`. -/
def nextHigherLevelId (current : Int) (cfg : AppConfig) : Int :=
  match (sortedIds cfg).find? (fun id => decide (current < id)) with
  | some id => id
  | none => ((sortedIds cfg).getLast?).getD current

/-- Model of `clampToExistingLevel(levelId, cfg)`: keep an existing id, otherwise clamp
to the nearest existing id (below min → min, above max → max, else closest;
the source scans the sorted ids tracking the best distance, starting from
the smallest id). -/
def clampToExistingLevel (levelId : Int) (cfg : AppConfig) : Int :=
  if (cfg.levels.map (fun l => l.id)).contains levelId then levelId
  else
    match h : sortedIds cfg with
    | [] => 1
    | minId :: rest =>
      let maxId := (minId :: rest).getLast (by simp)
      if levelId < minId then minId
      else if maxId < levelId then maxId
      else
        (minId :: rest).foldl
          (fun best id =>
            if (id - levelId).natAbs < (best - levelId).natAbs then id else best)
          minId

/-- Model of `applyAnswer({word, right, config, isCleanRun})` from the source, with the
wall clock (`nowIso = toISO(new Date())`, `dayStart = todayStartLocal()`)
passed explicitly.  The level lookup is
`config.levels.find(l => l.id === word.levelId) ?? config.levels[0]`. -/
def applyAnswer (nowIso dayStart : Int) (word : WordItem) (right : Bool)
    (config : AppConfig) (isCleanRun : Bool) : WordItem :=
  let levelOpt : Option LevelConfig :=
    match config.levels.find? (fun l => l.id == word.levelId) with
    | some l => some l
    | none => config.levels.head?
  let maxLevelId := maxLevel config
  let updated : WordItem :=
    { word with
      updatedAt := nowIso
      lastReviewedAt := some nowIso
      lastResult := some (if right then LastResult.right else LastResult.wrong)
      totalRight := word.totalRight + (if right then 1 else 0)
      totalWrong := word.totalWrong + (if right then 0 else 1) }
  if !right then
    { updated with
      streakCorrect := if config.wrongResetsStreak then 0 else updated.streakCorrect
      dueAt := if config.wrongMakesImmediatelyDue then nowIso else word.dueAt }
  else
    let nextStreak := if isCleanRun then word.streakCorrect + 1 else word.streakCorrect
    let interval :=
      clampInt (match levelOpt with | some l => l.intervalDays | none => 0) 0 3650
    let updated2 :=
      { updated with streakCorrect := nextStreak, dueAt := addDays dayStart interval }
    let threshold :=
      clampInt (match levelOpt with | some l => l.promoteAfterCorrect | none => 1) 1 99
    if isCleanRun ∧ word.levelId < maxLevelId ∧ threshold ≤ nextStreak then
      let nextLevelId := nextHigherLevelId word.levelId config
      let promotedOpt := config.levels.find? (fun l => l.id == nextLevelId)
      let promotedInterval :=
        clampInt (match promotedOpt with | some l => l.intervalDays | none => interval) 0 3650
      { updated2 with
        levelId := nextLevelId
        streakCorrect := 0
        dueAt := addDays dayStart promotedInterval }
    else updated2

/-- The dedup loop of `normalizeConfig` (`seen` set, keep first occurrence). -/
def dedupLevelsById : List LevelConfig → List Int → List LevelConfig
  | [], _ => []
  | l :: rest, seen =>
    if seen.contains l.id then dedupLevelsById rest seen
    else l :: dedupLevelsById rest (l.id :: seen)

/-- Model of `normalizeConfig(cfg)` from the source: clamp each level's numeric fields,
sort by id, drop duplicate ids keeping the first, fall back to the default
levels when the result is empty; booleans coerced with `!!`. -/
def normalizeConfig (cfg : AppConfig) : AppConfig :=
  let normalizedLevels :=
    (cfg.levels.map (fun l =>
      { id := l.id
        name := l.name
        promoteAfterCorrect := clampInt l.promoteAfterCorrect 1 99
        intervalDays := clampInt l.intervalDays 0 3650 : LevelConfig })).insertionSort
      (fun a b => a.id ≤ b.id)
  let unique := dedupLevelsById normalizedLevels []
  let finalLevels := if unique.isEmpty then defaultConfig.levels else unique
  { levels := finalLevels
    wrongMakesImmediatelyDue := cfg.wrongMakesImmediatelyDue
    wrongResetsStreak := cfg.wrongResetsStreak }

/-- Model of `prevSafeFirstLevelId(cfg)`: smallest configured id, or 1. -/
def prevSafeFirstLevelId (cfg : AppConfig) : Int :=
  match sortedIds cfg with
  | [] => 1
  | i :: _ => i

/-- Model of `normalizeWord(w, cfg)` from the source, with the clock and the fresh
uuid (used when the stored id is empty) passed explicitly. -/
def normalizeWord (nowIso : Int) (freshId : String) (w : WordItem) (cfg : AppConfig) :
    WordItem :=
  { id := if w.id = "" then freshId else w.id
    word := w.word.trim
    hint := w.hint.trim
    definition := w.definition.trim
    createdAt := if w.createdAt = 0 then nowIso else w.createdAt
    updatedAt := if w.updatedAt = 0 then nowIso else w.updatedAt
    levelId := clampToExistingLevel w.levelId cfg
    streakCorrect := clampInt w.streakCorrect 0 9999
    totalRight := clampInt w.totalRight 0 999999
    totalWrong := clampInt w.totalWrong 0 999999
    lastReviewedAt := w.lastReviewedAt
    dueAt := if w.dueAt = 0 then nowIso else w.dueAt
    lastResult := w.lastResult }

/-! ## Reverse-mode word selection (src/lib/reverse-word-selection.ts) -/

/-- JavaScript runtime failures we model: `TypeError` from reading a property
of `undefined`, the explicit `throw new Error("Not enough words…")`, and the
explicit `throw new Error("No active question")` in `submitAnswer`. -/
inductive JsError where
  | typeError
  | insufficientWords
  | noActiveQuestion
  deriving DecidableEq

structure WordOption where
  id : String
  word : String
  deriving DecidableEq

structure ReverseWord where
  id : String
  word : String
  hint : String
  definition : String
  deriving DecidableEq

structure Question where
  wordId : String
  word : String
  definition : String
  options : List WordOption
  deriving DecidableEq

/-- All 3-character windows of a character list, in order — the loop
`for i in 0 .. correct.length - 3` over `correct.substring(i, i + 3)`. -/
def triWindows : List Char → List (List Char)
  | a :: b :: c :: rest => [a, b, c] :: triWindows (b :: c :: rest)
  | _ => []

/-- Model of `haystack.includes(needle)` on character lists: `needle` occurs as a
contiguous run somewhere in `haystack`. -/
def containsRun : List Char → List Char → Bool
  | needle, [] => needle.isEmpty
  | needle, h :: t => needle.isPrefixOf (h :: t) || containsRun needle t

/-- Number of lowercased 3-char windows of `correct` contained in the
lowercased `candidate` (the `+1 per substring` part of the heuristic). -/
def countTriMatches (candidate correct : String) : Int :=
  let candLower := candidate.toList.map Char.toLower
  ((triWindows (correct.toList.map Char.toLower)).filter
    (fun w => containsRun w candLower)).length

/-- Model of `scoreWord(candidate, correct)` from `generateWrongAnswers`: +3 for close
length, +2 for the same (case-insensitive) first letter, +1 per shared
3-char substring, −1 for very short candidates, plus a random 0–2 jitter
(here an explicit parameter).  Reading the first character of an empty
string (`candidate[0]` or `correct[0]` being `undefined`, then
`.toLowerCase()`) raises a `TypeError`. -/
def scoreWord (candidate correct : String) (jitter : Rat) : Except JsError Rat :=
  match candidate.toList, correct.toList with
  | [], _ => Except.error JsError.typeError
  | _ :: _, [] => Except.error JsError.typeError
  | c0 :: _, k0 :: _ =>
    let lengthDiff := ((candidate.length : Int) - (correct.length : Int)).natAbs
    let s0 : Int := if lengthDiff ≤ 2 then 3 else 0
    let s1 : Int := s0 + (if c0.toLower == k0.toLower then 2 else 0)
    let s2 : Int := s1 + countTriMatches candidate correct
    let s3 : Int := s2 - (if candidate.length ≤ 3 then 1 else 0)
    Except.ok ((s3 : Rat) + jitter)

/-- Model of `generateWrongAnswers(correctWord, allWords, count)`: filter out the
target, fail with `InsufficientWords` when too few candidates remain, score
every candidate (jitter indexed by candidate position), sort by score
descending, take the top `count`. -/
def generateWrongAnswers (correctWord : WordOption) (allWords : List WordOption)
    (count : Nat) (jit : Nat → Rat) : Except JsError (List WordOption) := do
  let candidateWords := allWords.filter (fun w => w.id != correctWord.id)
  if candidateWords.length < count then
    Except.error JsError.insufficientWords
  else do
    let scored ← candidateWords.enum.mapM (fun p => do
      let s ← scoreWord p.2.word correctWord.word (jit p.1)
      pure (p.2, s))
    let sorted := scored.insertionSort (fun a b => b.2 ≤ a.2)
    pure ((sorted.take count).map (fun p => p.1))

/-- Model of `generateQuestion(correctWord, allWords)`: two distractors plus the
target, shuffled (the random shuffle is a parameter); the question carries
the target's id, text and definition. -/
def generateQuestion (correctWord : ReverseWord) (allWords : List WordOption)
    (shuffle : List WordOption → List WordOption) (jit : Nat → Rat) :
    Except JsError Question := do
  let wrongAnswers ←
    generateWrongAnswers { id := correctWord.id, word := correctWord.word } allWords 2 jit
  let options := shuffle ({ id := correctWord.id, word := correctWord.word } :: wrongAnswers)
  pure { wordId := correctWord.id
         word := correctWord.word
         definition := correctWord.definition
         options := options }

/-- Model of `selectRandomWords(words, count)`: fail when the pool is too small, else
shuffle (parameter) and truncate. -/
def selectRandomWords {α : Type} (words : List α) (count : Nat)
    (shuffle : List α → List α) : Except JsError (List α) :=
  if words.length < count then Except.error JsError.insufficientWords
  else Except.ok ((shuffle words).take count)

/-! ## Reverse-mode room state machine (src/lib/reverse-operations.ts) -/

inductive ReverseStatus where
  | waiting
  | active
  | question
  | results
  | finished
  deriving DecidableEq

structure ReversePlayer where
  userId : String
  playerName : String
  joinOrder : Nat
  totalScore : Int
  deriving DecidableEq

/-- One row of `vocab_reverse_answers` for a room; the table carries
`UNIQUE(room_id, question_index, user_id)`. -/
structure ReverseAnswerRow where
  questionIndex : Nat
  userId : String
  selectedWordId : String
  isCorrect : Bool
  wasOnlyCorrect : Bool
  pointsEarned : Int
  answerTimeMs : Int
  deriving DecidableEq

structure ReverseRoom where
  status : ReverseStatus
  totalQuestions : Nat
  currentQuestionIndex : Nat
  currentQuestion : Option Question
  gameWords : List ReverseWord
  questionStartTime : Option Int
  players : List ReversePlayer
  answers : List ReverseAnswerRow
  deriving DecidableEq

/-- Model of `startReverseGame(roomId, gameWords)`: status `active`, store the sampled
word list, `current_question_index = 0`. -/
def startReverseGame (room : ReverseRoom) (gameWords : List ReverseWord) : ReverseRoom :=
  { room with
    status := ReverseStatus.active
    gameWords := gameWords
    currentQuestionIndex := 0 }

/-- Model of `advanceToNextQuestion(roomId, allWords)`: `nextIndex = current + 1`; at
or past `totalQuestions` finalize to `finished`, otherwise build a question
from `gameWords[nextIndex]` and enter status `question`.  Indexing past the
word list would hand `undefined` to `generateQuestion` (a `TypeError`). -/
def advanceToNextQuestion (room : ReverseRoom) (allWords : List WordOption)
    (nowIso : Int) (shuffle : List WordOption → List WordOption) (jit : Nat → Rat) :
    Except JsError ReverseRoom :=
  let nextIndex := room.currentQuestionIndex + 1
  if room.totalQuestions ≤ nextIndex then
    Except.ok { room with status := ReverseStatus.finished }
  else
    match room.gameWords.get? nextIndex with
    | none => Except.error JsError.typeError
    | some nextWord => do
      let q ← generateQuestion nextWord allWords shuffle jit
      pure { room with
             status := ReverseStatus.question
             currentQuestionIndex := nextIndex
             currentQuestion := some q
             questionStartTime := some nowIso }

/-- Model of `submitAnswer(roomId, questionIndex, userId, selectedWordId, answerTimeMs)`:
needs an active question; correctness compares the selected id with the
question's target id; a duplicate key hits the unique constraint (code
23505) and is silently swallowed before any score change; otherwise the row
is inserted and, when correct, the player's score is atomically
incremented by 1. -/
def submitAnswer (room : ReverseRoom) (questionIndex : Nat)
    (userId selectedWordId : String) (answerTimeMs : Int) :
    Except JsError ReverseRoom :=
  match room.currentQuestion with
  | none => Except.error JsError.noActiveQuestion
  | some q =>
    let isCorrect := selectedWordId == q.wordId
    let pointsEarned : Int := if isCorrect then 1 else 0
    if room.answers.any (fun a => a.questionIndex == questionIndex && a.userId == userId) then
      Except.ok room
    else
      let room1 :=
        { room with
          answers := room.answers ++
            [{ questionIndex := questionIndex
               userId := userId
               selectedWordId := selectedWordId
               isCorrect := isCorrect
               wasOnlyCorrect := false
               pointsEarned := pointsEarned
               answerTimeMs := answerTimeMs }] }
      if isCorrect then
        Except.ok
          { room1 with
            players := room1.players.map (fun p =>
              if p.userId == userId then { p with totalScore := p.totalScore + 1 } else p) }
      else Except.ok room1

def emptyAnswerRow : ReverseAnswerRow :=
  { questionIndex := 0, userId := "", selectedWordId := "", isCorrect := false
    wasOnlyCorrect := false, pointsEarned := 0, answerTimeMs := 0 }

/-- Model of `checkAllAnswersAndCalculateBonus(roomId, questionIndex)`: once the rows
for the question are at least as many as the seated players, award the
bonus when exactly one answer is correct (upgrade that row to 2 points and
increment that player's score once more), then switch the room to
`results` and return `true`; before that point return `false` without
touching anything. -/
def checkAllAnswersAndCalculateBonus (room : ReverseRoom) (questionIndex : Nat) :
    ReverseRoom × Bool :=
  let answers := room.answers.filter (fun a => a.questionIndex == questionIndex)
  if answers.length < room.players.length then
    (room, false)
  else
    let correctAnswers := answers.filter (fun a => a.isCorrect)
    let room1 :=
      if correctAnswers.length = 1 then
        let bonusUserId := (correctAnswers.headD emptyAnswerRow).userId
        { room with
          answers := room.answers.map (fun a =>
            if a.questionIndex == questionIndex && a.userId == bonusUserId then
              { a with wasOnlyCorrect := true, pointsEarned := 2 }
            else a)
          players := room.players.map (fun p =>
            if p.userId == bonusUserId then { p with totalScore := p.totalScore + 1 }
            else p) }
      else room
    ({ room1 with status := ReverseStatus.results }, true)

/-! ## Versus-mode finish logic (src/components/VersusMode.tsx) -/

inductive VersusStatus where
  | waiting
  | active
  | finished
  deriving DecidableEq

structure VersusRoom where
  playerAId : String
  playerBId : Option String
  status : VersusStatus
  currentTurn : Option String
  playerAWords : List String
  playerBWords : List String
  playerAIndex : Nat
  playerBIndex : Nat
  playerARightCount : Nat
  playerBRightCount : Nat
  playerAWrongCount : Nat
  playerBWrongCount : Nat
  playerATime : Int
  playerBTime : Int
  turnStartTime : Option Int
  winnerId : Option String
  deriving DecidableEq

/-- Model of `finishGame(playerAFinished)` from the versus component, as a pure
function of the room snapshot it reads.  When the other side has also
exhausted its list the match ends on right-count comparison (time only
breaks ties); otherwise a flawless finisher (wrong-count 0) hands the turn
to the opponent, and a non-flawless finisher triggers an immediate
right-count comparison whose tie favors the finisher. -/
def finishGame (room : VersusRoom) (playerAFinished : Bool) (nowIso : Int) :
    VersusRoom :=
  let otherPlayerIndex := if playerAFinished then room.playerBIndex else room.playerAIndex
  let otherPlayerTotal :=
    if playerAFinished then room.playerBWords.length else room.playerAWords.length
  if otherPlayerTotal ≤ otherPlayerIndex then
    let winnerId :=
      if room.playerBRightCount < room.playerARightCount then room.playerAId
      else if room.playerARightCount < room.playerBRightCount then room.playerBId.getD ""
      else if room.playerATime < room.playerBTime then room.playerAId
      else room.playerBId.getD ""
    { room with
      status := VersusStatus.finished
      winnerId := some winnerId
      currentTurn := none }
  else
    let currentWrongCount :=
      if playerAFinished then room.playerAWrongCount else room.playerBWrongCount
    if currentWrongCount = 0 then
      let nextTurn := if playerAFinished then room.playerBId.getD "" else room.playerAId
      { room with
        currentTurn := some nextTurn
        turnStartTime := some nowIso }
    else
      let winnerId :=
        if room.playerBRightCount < room.playerARightCount then room.playerAId
        else if room.playerARightCount < room.playerBRightCount then room.playerBId.getD ""
        else if playerAFinished then room.playerAId
        else room.playerBId.getD ""
      { room with
        status := VersusStatus.finished
        winnerId := some winnerId
        currentTurn := none }

/-! ## Concrete instances used by the theorems below -/

def wordFixture : WordItem :=
  { id := "w1", word := "apple", hint := "h", definition := "a fruit"
    createdAt := 1, updatedAt := 1, levelId := 1, streakCorrect := 0
    totalRight := 0, totalWrong := 0, lastReviewedAt := none, dueAt := 0
    lastResult := none }

/-- A configuration whose level ids are 1 and 5, so that levelId 4 is closest
to id 5 (interval 30) while the list's first level is id 1 (interval 1). -/
def cfgTwoLevels : AppConfig :=
  { levels :=
      [ { id := 1, name := "L1", promoteAfterCorrect := 3, intervalDays := 1 }
      , { id := 5, name := "L5", promoteAfterCorrect := 2, intervalDays := 30 } ]
    wrongMakesImmediatelyDue := true
    wrongResetsStreak := true }

def wordLevel4 : WordItem := { wordFixture with levelId := 4 }

def wordAtMax : WordItem := { wordFixture with levelId := 3 }

/-- The fixture word after two clean-run correct answers under the default
configuration (streak 2, still level 1). -/
def wordStreak2 : WordItem :=
  applyAnswer 100 0 (applyAnswer 100 0 wordFixture true defaultConfig true)
    true defaultConfig true

def mkReverseWord (s : String) : ReverseWord :=
  { id := s, word := s, hint := "", definition := s }

def tenGameWords : List ReverseWord :=
  ["a", "b", "c", "d", "e", "f", "g", "h", "i", "j"].map mkReverseWord

def thirteenWordPool : List WordOption :=
  ["a", "b", "c", "d", "e", "f", "g", "h", "i", "j", "k", "l", "m"].map
    (fun s => { id := s, word := s })

def freshReverseRoom : ReverseRoom :=
  { status := ReverseStatus.waiting, totalQuestions := 10, currentQuestionIndex := 0
    currentQuestion := none, gameWords := [], questionStartTime := none
    players := [], answers := [] }

def playerOne : ReversePlayer :=
  { userId := "u1", playerName := "P1", joinOrder := 1, totalScore := 1 }

def playerTwo : ReversePlayer :=
  { userId := "u2", playerName := "P2", joinOrder := 2, totalScore := 0 }

def answerOneCorrect : ReverseAnswerRow :=
  { questionIndex := 0, userId := "u1", selectedWordId := "t"
    isCorrect := true, wasOnlyCorrect := false, pointsEarned := 1, answerTimeMs := 5 }

def answerTwoWrong : ReverseAnswerRow :=
  { questionIndex := 0, userId := "u2", selectedWordId := "x"
    isCorrect := false, wasOnlyCorrect := false, pointsEarned := 0, answerTimeMs := 6 }

/-- A fully-answered question-0 state: two seated players, player u1 the only
correct answerer (already holding the 1 base point). -/
def bonusRoom : ReverseRoom :=
  { freshReverseRoom with
    status := ReverseStatus.question
    players := [playerOne, playerTwo]
    answers := [answerOneCorrect, answerTwoWrong] }

def questionT : Question :=
  { wordId := "t", word := "t", definition := "d", options := [] }

/-- A room in which u1 has already submitted an answer row for question 0. -/
def submittedRoom : ReverseRoom :=
  { freshReverseRoom with
    status := ReverseStatus.question
    currentQuestion := some questionT
    players := [playerOne, playerTwo]
    answers := [answerOneCorrect] }

/-- An active versus room in which both players have exhausted their
two-word lists; A has the higher right count but the larger time. -/
def versusBothDone : VersusRoom :=
  { playerAId := "ua", playerBId := some "ub", status := VersusStatus.active
    currentTurn := some "ua"
    playerAWords := ["x", "y"], playerBWords := ["p", "q"]
    playerAIndex := 2, playerBIndex := 2
    playerARightCount := 2, playerBRightCount := 1
    playerAWrongCount := 1, playerBWrongCount := 2
    playerATime := 9000, playerBTime := 100
    turnStartTime := some 0, winnerId := none }

/-- An active versus room in which A just finished flawlessly (wrong count 0)
while B still has words left. -/
def versusFlawlessA : VersusRoom :=
  { versusBothDone with
    playerBIndex := 0
    playerAWrongCount := 0 }

/-- Repeated right answers: fold `applyAnswer … right := true` over a list of
per-answer clocks `(nowIso, dayStart)`. -/
def applyRightRepeatedly (cfg : AppConfig) (clean : Bool) :
    List (Int × Int) → WordItem → WordItem
  | [], w => w
  | (nowIso, dayStart) :: rest, w =>
    applyRightRepeatedly cfg clean rest (applyAnswer nowIso dayStart w true cfg clean)

/-- Total of all seated players' cumulative scores in a reverse room. -/
def scoreSum (room : ReverseRoom) : Int :=
  (room.players.map (fun p => p.totalScore)).sum

/-! ## Helper lemmas -/

theorem clampInt_of_bounds {n lo hi : Int} (h1 : lo ≤ n) (h2 : n ≤ hi) :
    clampInt n lo hi = n := by
  unfold clampInt
  rw [max_eq_right h1, min_eq_right h2]

theorem clampInt_bounds {n lo hi : Int} (h : lo ≤ hi) :
    lo ≤ clampInt n lo hi ∧ clampInt n lo hi ≤ hi := by
  unfold clampInt
  exact ⟨le_min h (le_max_left lo n), min_le_left hi (max lo n)⟩

/-! ## Claim theorems -/

/-- C10: for every word, config, answer outcome and clean-run flag,
`applyAnswer` leaves `id`, `word`, `hint`, `definition` and `createdAt`
unchanged, and increments exactly one of `totalRight` (on right) or
`totalWrong` (on wrong) by exactly 1, leaving the other unchanged. -/
theorem applyAnswer_frame (nowIso dayStart : Int) (w : WordItem) (right : Bool)
    (cfg : AppConfig) (clean : Bool) :
    (applyAnswer nowIso dayStart w right cfg clean).id = w.id ∧
    (applyAnswer nowIso dayStart w right cfg clean).word = w.word ∧
    (applyAnswer nowIso dayStart w right cfg clean).hint = w.hint ∧
    (applyAnswer nowIso dayStart w right cfg clean).definition = w.definition ∧
    (applyAnswer nowIso dayStart w right cfg clean).createdAt = w.createdAt ∧
    (applyAnswer nowIso dayStart w right cfg clean).totalRight
      = w.totalRight + (if right then 1 else 0) ∧
    (applyAnswer nowIso dayStart w right cfg clean).totalWrong
      = w.totalWrong + (if right then 0 else 1) := by
  cases right <;> simp only [applyAnswer] <;> split_ifs <;> simp_all

/-- C8: submitting an answer for a (question, user) key that already has an
answer row is a silent no-op — the room is returned unchanged, so the
number of rows for that key stays the same and no player's cumulative
score is incremented a second time. -/
theorem submitAnswer_duplicate_noop (room : ReverseRoom) (qIdx : Nat)
    (userId sel : String) (t : Int) (q : Question)
    (hq : room.currentQuestion = some q)
    (hdup : room.answers.any
      (fun a => a.questionIndex == qIdx && a.userId == userId) = true) :
    submitAnswer room qIdx userId sel t = Except.ok room ∧
    (∀ r, submitAnswer room qIdx userId sel t = Except.ok r →
      (r.answers.filter
          (fun a => a.questionIndex == qIdx && a.userId == userId)).length
        = (room.answers.filter
            (fun a => a.questionIndex == qIdx && a.userId == userId)).length ∧
      r.players = room.players) := by
  have hmain : submitAnswer room qIdx userId sel t = Except.ok room := by
    simp only [submitAnswer, hq, hdup, if_true]
  refine ⟨hmain, fun r hr => ?_⟩
  rw [hmain] at hr
  cases hr
  exact ⟨rfl, rfl⟩

/-- Witness for C8: in `submittedRoom` player u1 already has a row for
question 0; re-submitting leaves the room untouched. -/
theorem submitAnswer_duplicate_noop_witness :
    submitAnswer submittedRoom 0 "u1" "t" 7 = Except.ok submittedRoom := by
  exact (submitAnswer_duplicate_noop submittedRoom 0 "u1" "t" 7 questionT
    (by rfl) (by decide)).1

/-- C2 counterexample: with configured level ids 1 and 5, a word at levelId 4
is nearest to level 5 (interval 30), but `applyAnswer` schedules it with the
first level's interval (1 day): the lookup is `find ?? levels[0]`, not a
nearest-id clamp. -/
theorem applyAnswer_nearest_clamp_counterexample :
    clampToExistingLevel 4 cfgTwoLevels = 5 ∧
    cfgTwoLevels.levels.find? (fun l => l.id == (5 : Int)) =
      some { id := 5, name := "L5", promoteAfterCorrect := 2, intervalDays := 30 } ∧
    (applyAnswer 100 0 wordLevel4 true cfgTwoLevels true).dueAt = addDays 0 1 ∧
    addDays 0 1 ≠ addDays 0 30 := by
  refine ⟨by decide, by decide, by decide, by decide⟩

/-- C4 counterexample: in `bonusRoom` (all seated players answered, u1 the
only correct one) the first bonus check raises u1's score from 1 to 2, and
re-running the check raises it again to 3 — the bonus score increment is
applied a second time. -/
theorem checkBonus_rerun_double_award :
    ((checkAllAnswersAndCalculateBonus bonusRoom 0).1.players.map
        (fun p => p.totalScore)) = [2, 0] ∧
    ((checkAllAnswersAndCalculateBonus
        (checkAllAnswersAndCalculateBonus bonusRoom 0).1 0).1.players.map
        (fun p => p.totalScore)) = [3, 0] := by
  refine ⟨by decide, by decide⟩

/-- C5 counterexample: distractor scoring reads the first character of every
candidate, so a candidate with empty word text makes `generateWrongAnswers`
throw a `TypeError` even though enough candidates (2) exist — this is not
the documented `InsufficientWords` failure. -/
theorem generateWrongAnswers_empty_word_throws :
    generateWrongAnswers { id := "t", word := "banana" }
      [ { id := "t", word := "banana" }, { id := "e", word := "" }
      , { id := "m", word := "mango" } ] 2 (fun _ => 0)
      = Except.error JsError.typeError ∧
    (([ { id := "t", word := "banana" }, { id := "e", word := "" }
      , { id := "m", word := "mango" } ] : List WordOption).filter
        (fun w => w.id != "t")).length = 2 := by
  refine ⟨by rfl, by decide⟩

/-- C3: starting a reverse game stores `current_question_index = 0`, but the
first Advance computes `nextIndex = 0 + 1` and builds the question from
`gameWords[1]` — the first sampled word (here id "a") is never used as a
question target, and only indexes 1..9 of the 10 sampled words are played. -/
theorem reverseStart_firstQuestion_off_by_one :
    ((advanceToNextQuestion (startReverseGame freshReverseRoom tenGameWords)
        thirteenWordPool 0 id (fun _ => 0)).map
      (fun r => (r.currentQuestionIndex,
                 r.currentQuestion.map (fun q => q.wordId)))) =
      Except.ok (1, some "b") ∧
    (tenGameWords.get? 0).map (fun w => w.id) = some "a" ∧
    (startReverseGame freshReverseRoom tenGameWords).currentQuestionIndex = 0 := by
  refine ⟨by rfl, by rfl, by rfl⟩

/-- C6: when `finishGame` runs with the other side's word list also
exhausted, the room finishes and the strictly higher right-answer count
decides the winner regardless of the cumulative times; only on equal right
counts does the lower cumulative time decide (with player B winning the
exact-tie on time, since A's time is then not lower). -/
theorem finishGame_mutual_completion (room : VersusRoom) (aFin : Bool)
    (nowIso : Int) (b : String) (hB : room.playerBId = some b)
    (hdone : if aFin then room.playerBWords.length ≤ room.playerBIndex
             else room.playerAWords.length ≤ room.playerAIndex) :
    (finishGame room aFin nowIso).status = VersusStatus.finished ∧
    (room.playerBRightCount < room.playerARightCount →
        (finishGame room aFin nowIso).winnerId = some room.playerAId) ∧
    (room.playerARightCount < room.playerBRightCount →
        (finishGame room aFin nowIso).winnerId = some b) ∧
    (room.playerARightCount = room.playerBRightCount →
        (room.playerATime < room.playerBTime →
            (finishGame room aFin nowIso).winnerId = some room.playerAId) ∧
        (room.playerBTime ≤ room.playerATime →
            (finishGame room aFin nowIso).winnerId = some b)) := by
  cases aFin <;>
    simp only [if_true, if_false, Bool.false_eq_true, Bool.true_eq_false] at hdone <;>
    simp only [finishGame, if_true, if_false, Bool.false_eq_true, Bool.true_eq_false,
      hdone, hB, Option.getD_some] <;>
    refine ⟨by first | trivial | (split_ifs <;> rfl), fun h1 => ?_, fun h2 => ?_,
      fun h3 => ?_⟩ <;>
    [ (split_ifs <;> first | rfl | omega)
    ; (split_ifs <;> first | rfl | omega)
    ; (refine ⟨fun h4 => ?_, fun h5 => ?_⟩ <;>
        split_ifs <;> first | rfl | omega)
    ; (split_ifs <;> first | rfl | omega)
    ; (split_ifs <;> first | rfl | omega)
    ; (refine ⟨fun h4 => ?_, fun h5 => ?_⟩ <;>
        split_ifs <;> first | rfl | omega) ]

/-- Witness for C6: in `versusBothDone` both players exhausted their
two-word lists; A has 2 right against B's 1 but a much larger time, and A
still wins. -/
theorem finishGame_mutual_completion_witness :
    (finishGame versusBothDone true 500).status = VersusStatus.finished ∧
    (finishGame versusBothDone true 500).winnerId = some "ua" := by
  have h := finishGame_mutual_completion versusBothDone true 500 "ub"
    (by rfl) (by decide)
  exact ⟨h.1, h.2.1 (by decide)⟩

/-- C7: when a player finishes all their words with wrong-count exactly 0
while the opponent still has words left, no winner is declared: the status
and winner are unchanged and the turn is handed to the opponent with a
fresh turn start time. -/
theorem finishGame_flawless_passes_turn (room : VersusRoom) (aFin : Bool)
    (nowIso : Int) (b : String) (hB : room.playerBId = some b)
    (hnot : if aFin then room.playerBIndex < room.playerBWords.length
            else room.playerAIndex < room.playerAWords.length)
    (hflaw : (if aFin then room.playerAWrongCount else room.playerBWrongCount) = 0) :
    (finishGame room aFin nowIso).status = room.status ∧
    (finishGame room aFin nowIso).winnerId = room.winnerId ∧
    (finishGame room aFin nowIso).currentTurn
      = some (if aFin then b else room.playerAId) ∧
    (finishGame room aFin nowIso).turnStartTime = some nowIso := by
  cases aFin <;>
    simp only [if_true, if_false, Bool.false_eq_true, Bool.true_eq_false]
      at hnot hflaw <;>
    simp only [finishGame, if_true, if_false, Bool.false_eq_true, Bool.true_eq_false,
      hB, Option.getD_some] <;>
    rw [if_neg (by omega)] <;>
    rw [if_pos hflaw] <;>
    exact ⟨rfl, rfl, rfl, rfl⟩

/-- Witness for C7: in `versusFlawlessA` player A finished flawlessly while
B is still at index 0 of two words; the game does not end and the turn goes
to B with the fresh start time. -/
theorem finishGame_flawless_passes_turn_witness :
    (finishGame versusFlawlessA true 500).status = versusFlawlessA.status ∧
    (finishGame versusFlawlessA true 500).winnerId = versusFlawlessA.winnerId ∧
    (finishGame versusFlawlessA true 500).currentTurn = some "ub" ∧
    (finishGame versusFlawlessA true 500).turnStartTime = some 500 := by
  have h := finishGame_flawless_passes_turn versusFlawlessA true 500 "ub"
    (by rfl) (by decide) (by decide)
  exact ⟨h.1, h.2.1, h.2.2.1, h.2.2.2⟩

/-- C1: a clean-run right answer increments `totalRight`, increments the
streak by 1 and schedules `dueAt = dayStart + level.intervalDays`; it
promotes to the next-higher configured level id — resetting the streak to 0
and recomputing `dueAt` from the same day anchor with the new level's
`intervalDays` — exactly when the incremented streak reaches the level's
`promoteAfterCorrect` and the level is not the maximum configured one. -/
theorem applyAnswer_right_clean_promotion (nowIso dayStart : Int) (w : WordItem)
    (cfg : AppConfig) (l lNext : LevelConfig)
    (hfind : cfg.levels.find? (fun x => x.id == w.levelId) = some l)
    (hthr1 : 1 ≤ l.promoteAfterCorrect) (hthr2 : l.promoteAfterCorrect ≤ 99)
    (hint1 : 0 ≤ l.intervalDays) (hint2 : l.intervalDays ≤ 3650)
    (hfindN : cfg.levels.find?
      (fun x => x.id == nextHigherLevelId w.levelId cfg) = some lNext)
    (hintN1 : 0 ≤ lNext.intervalDays) (hintN2 : lNext.intervalDays ≤ 3650) :
    (applyAnswer nowIso dayStart w true cfg true).totalRight = w.totalRight + 1 ∧
    ((w.levelId < maxLevel cfg ∧ l.promoteAfterCorrect ≤ w.streakCorrect + 1) →
        (applyAnswer nowIso dayStart w true cfg true).levelId
            = nextHigherLevelId w.levelId cfg ∧
        (applyAnswer nowIso dayStart w true cfg true).streakCorrect = 0 ∧
        (applyAnswer nowIso dayStart w true cfg true).dueAt
            = addDays dayStart lNext.intervalDays) ∧
    (¬ (w.levelId < maxLevel cfg ∧ l.promoteAfterCorrect ≤ w.streakCorrect + 1) →
        (applyAnswer nowIso dayStart w true cfg true).levelId = w.levelId ∧
        (applyAnswer nowIso dayStart w true cfg true).streakCorrect
            = w.streakCorrect + 1 ∧
        (applyAnswer nowIso dayStart w true cfg true).dueAt
            = addDays dayStart l.intervalDays) := by
  by_cases hp : w.levelId < maxLevel cfg ∧ l.promoteAfterCorrect ≤ w.streakCorrect + 1
  · simp only [applyAnswer, hfind, hfindN, clampInt_of_bounds hint1 hint2,
      clampInt_of_bounds hthr1 hthr2, clampInt_of_bounds hintN1 hintN2,
      Bool.not_true, Bool.false_eq_true, if_false, if_true]
    rw [if_pos ⟨by trivial, hp.1, hp.2⟩]
    refine ⟨rfl, fun _ => ⟨rfl, rfl, rfl⟩, fun hc => absurd hp hc⟩
  · simp only [applyAnswer, hfind, clampInt_of_bounds hint1 hint2,
      clampInt_of_bounds hthr1 hthr2,
      Bool.not_true, Bool.false_eq_true, if_false, if_true]
    rw [if_neg (fun hc => hp ⟨hc.2.1, hc.2.2⟩)]
    refine ⟨rfl, fun hc => absurd hc hp, fun _ => ⟨rfl, rfl, rfl⟩⟩

/-- Witness for C1, end-to-end scenario A: under the default 3-level ladder
(thresholds 3/2/1, intervals 1/7/30), a word that reached streak 2 by two
clean-run correct answers promotes on the third: level 2, streak 0,
dueAt = day anchor + 7 days. -/
theorem applyAnswer_right_clean_promotion_witness :
    wordStreak2.levelId = 1 ∧ wordStreak2.streakCorrect = 2 ∧
    (applyAnswer 100 0 wordStreak2 true defaultConfig true).levelId = 2 ∧
    (applyAnswer 100 0 wordStreak2 true defaultConfig true).streakCorrect = 0 ∧
    (applyAnswer 100 0 wordStreak2 true defaultConfig true).dueAt = addDays 0 7 := by
  have h := applyAnswer_right_clean_promotion 100 0 wordStreak2 defaultConfig
    { id := 1, name := "Level 1", promoteAfterCorrect := 3, intervalDays := 1 }
    { id := 2, name := "Level 2", promoteAfterCorrect := 2, intervalDays := 7 }
    (by rfl) (by decide) (by decide) (by decide) (by decide)
    (by rfl) (by decide) (by decide)
  have h2 := h.2.1 (by decide)
  exact ⟨by decide, by decide, h2.1.trans (by decide), h2.2.1, h2.2.2⟩

/-- C2 amended: `applyAnswer` never errors on a word whose `levelId` is
missing from the configured levels, but it does not use the nearest
existing level: the lookup `find ?? levels[0]` falls back to the first
configured level, whose `intervalDays` (scheduling) and
`promoteAfterCorrect` (promotion threshold) are used.  The nearest-id
clamping lives in `clampToExistingLevel`, used by `normalizeWord`. -/
theorem applyAnswer_missingLevel_first_fallback (nowIso dayStart : Int)
    (w : WordItem) (cfg : AppConfig) (l0 : LevelConfig)
    (hfind : cfg.levels.find? (fun x => x.id == w.levelId) = none)
    (hhead : cfg.levels.head? = some l0)
    (hint1 : 0 ≤ l0.intervalDays) (hint2 : l0.intervalDays ≤ 3650)
    (hthr1 : 1 ≤ l0.promoteAfterCorrect) (hthr2 : l0.promoteAfterCorrect ≤ 99) :
    (¬ (w.levelId < maxLevel cfg ∧ l0.promoteAfterCorrect ≤ w.streakCorrect + 1) →
        (applyAnswer nowIso dayStart w true cfg true).levelId = w.levelId ∧
        (applyAnswer nowIso dayStart w true cfg true).dueAt
          = addDays dayStart l0.intervalDays) ∧
    ((w.levelId < maxLevel cfg ∧ l0.promoteAfterCorrect ≤ w.streakCorrect + 1) →
        (applyAnswer nowIso dayStart w true cfg true).levelId
          = nextHigherLevelId w.levelId cfg) := by
  by_cases hp : w.levelId < maxLevel cfg ∧ l0.promoteAfterCorrect ≤ w.streakCorrect + 1
  · simp only [applyAnswer, hfind, hhead, clampInt_of_bounds hint1 hint2,
      clampInt_of_bounds hthr1 hthr2,
      Bool.not_true, Bool.false_eq_true, if_false, if_true]
    rw [if_pos ⟨by trivial, hp.1, hp.2⟩]
    exact ⟨fun hc => absurd hp hc, fun _ => rfl⟩
  · simp only [applyAnswer, hfind, hhead, clampInt_of_bounds hint1 hint2,
      clampInt_of_bounds hthr1 hthr2,
      Bool.not_true, Bool.false_eq_true, if_false, if_true]
    rw [if_neg (fun hc => hp ⟨hc.2.1, hc.2.2⟩)]
    exact ⟨fun _ => ⟨rfl, rfl⟩, fun hc => absurd hc hp⟩

/-- Witness for amended C2: with level ids 1 and 5, the word at levelId 4
stays at levelId 4 and is scheduled with the first level's 1-day interval. -/
theorem applyAnswer_missingLevel_first_fallback_witness :
    (applyAnswer 100 0 wordLevel4 true cfgTwoLevels true).levelId = 4 ∧
    (applyAnswer 100 0 wordLevel4 true cfgTwoLevels true).dueAt = addDays 0 1 := by
  have h := applyAnswer_missingLevel_first_fallback 100 0 wordLevel4 cfgTwoLevels
    { id := 1, name := "L1", promoteAfterCorrect := 3, intervalDays := 1 }
    (by rfl) (by rfl) (by decide) (by decide) (by decide) (by decide)
  exact (h.1 (by decide))

/-- One right answer taken at the maximum configured level: the promotion
guard `word.levelId < maxLevelId` fails, so `levelId` is unchanged while
`dueAt` is recomputed from the day anchor with the level's interval. -/
theorem applyAnswer_at_max_step (nowIso dayStart : Int) (x : WordItem)
    (cfg : AppConfig) (clean : Bool) (l : LevelConfig)
    (hfind : cfg.levels.find? (fun c => c.id == x.levelId) = some l)
    (hmax : x.levelId = maxLevel cfg)
    (hint1 : 0 ≤ l.intervalDays) (hint2 : l.intervalDays ≤ 3650) :
    (applyAnswer nowIso dayStart x true cfg clean).levelId = x.levelId ∧
    (applyAnswer nowIso dayStart x true cfg clean).dueAt
      = addDays dayStart l.intervalDays := by
  simp only [applyAnswer, hfind, clampInt_of_bounds hint1 hint2,
    Bool.not_true, Bool.false_eq_true, if_false, if_true]
  rw [if_neg (fun hc => absurd hc.2.1 (by rw [hmax]; exact lt_irrefl _))]
  exact ⟨rfl, rfl⟩

/-- C9: for a word at the maximum configured level id, any number of
repeated right answers (any clean-run flags' value, any clocks) never
changes `levelId`, while every single answer recomputes `dueAt` to that
answer's day anchor plus the level's `intervalDays`. -/
theorem applyAnswer_maxLevel_invariant (cfg : AppConfig) (clean : Bool)
    (l : LevelConfig) (w : WordItem)
    (hmax : w.levelId = maxLevel cfg)
    (hfind : cfg.levels.find? (fun c => c.id == w.levelId) = some l)
    (hint1 : 0 ≤ l.intervalDays) (hint2 : l.intervalDays ≤ 3650) :
    (∀ clocks, (applyRightRepeatedly cfg clean clocks w).levelId = w.levelId) ∧
    (∀ clocks nowIso dayStart,
        (applyRightRepeatedly cfg clean (clocks ++ [(nowIso, dayStart)]) w).dueAt
          = addDays dayStart l.intervalDays) := by
  have key : ∀ clocks (x : WordItem), x.levelId = w.levelId →
      (applyRightRepeatedly cfg clean clocks x).levelId = w.levelId ∧
      (∀ nowIso dayStart,
        (applyRightRepeatedly cfg clean (clocks ++ [(nowIso, dayStart)]) x).dueAt
          = addDays dayStart l.intervalDays) := by
    intro clocks
    induction clocks with
    | nil =>
      intro x hx
      refine ⟨by simpa [applyRightRepeatedly] using hx, fun nowIso dayStart => ?_⟩
      have hfx : cfg.levels.find? (fun c => c.id == x.levelId) = some l := by
        simp only [hx]; exact hfind
      have step := applyAnswer_at_max_step nowIso dayStart x cfg clean l hfx
        (hx.trans hmax) hint1 hint2
      simpa [applyRightRepeatedly] using step.2
    | cons head tail ih =>
      intro x hx
      obtain ⟨nowIso0, dayStart0⟩ := head
      have hfx : cfg.levels.find? (fun c => c.id == x.levelId) = some l := by
        simp only [hx]; exact hfind
      have step := applyAnswer_at_max_step nowIso0 dayStart0 x cfg clean l hfx
        (hx.trans hmax) hint1 hint2
      have hx' : (applyAnswer nowIso0 dayStart0 x true cfg clean).levelId = w.levelId :=
        step.1.trans hx
      refine ⟨?_, fun nowIso dayStart => ?_⟩
      · simpa [applyRightRepeatedly] using (ih _ hx').1
      · simpa [applyRightRepeatedly] using (ih _ hx').2 nowIso dayStart
  exact ⟨fun clocks => (key clocks w rfl).1,
    fun clocks nowIso dayStart => (key clocks w rfl).2 nowIso dayStart⟩

/-- Witness for C9: a word at the default ladder's top level (id 3, interval
30 days) stays at level 3 over three right answers, and after the second
answer (day anchor 10) its dueAt is 10 + 30 days. -/
theorem applyAnswer_maxLevel_invariant_witness :
    (applyRightRepeatedly defaultConfig true
      [(100, 0), (200, 10), (300, 20)] wordAtMax).levelId = 3 ∧
    (applyRightRepeatedly defaultConfig true
      [(100, 0), (200, 10)] wordAtMax).dueAt = addDays 10 30 := by
  have h := applyAnswer_maxLevel_invariant defaultConfig true
    { id := 3, name := "Level 3", promoteAfterCorrect := 1, intervalDays := 30 }
    wordAtMax (by decide) (by rfl) (by decide) (by decide)
  exact ⟨h.1 [(100, 0), (200, 10), (300, 20)], h.2 [(100, 0)] 200 10⟩

/-- Bumping the score of a user who is not in the list changes nothing. -/
theorem bump_map_id (u : String) (ps : List ReversePlayer)
    (h : u ∉ ps.map (fun p => p.userId)) :
    ps.map (fun p =>
      if p.userId == u then { p with totalScore := p.totalScore + 1 } else p) = ps := by
  induction ps with
  | nil => rfl
  | cons p rest ih =>
    simp only [List.map_cons, List.mem_cons, not_or] at h
    have hne : (p.userId == u) = false := by
      simp only [beq_eq_false_iff_ne, ne_eq]
      exact fun he => h.1 he.symm
    simp only [List.map_cons, hne, Bool.false_eq_true, if_false, List.cons.injEq]
    exact ⟨trivial, ih h.2⟩

/-- Bumping the score of a user occurring exactly once (distinct user ids,
member) raises the score total by exactly one. -/
theorem sum_scores_map_bump (u : String) (ps : List ReversePlayer)
    (hnd : (ps.map (fun p => p.userId)).Nodup)
    (hmem : u ∈ ps.map (fun p => p.userId)) :
    ((ps.map (fun p =>
        if p.userId == u then { p with totalScore := p.totalScore + 1 } else p)).map
      (fun p => p.totalScore)).sum
      = ((ps.map (fun p => p.totalScore)).sum) + 1 := by
  induction ps with
  | nil => cases hmem
  | cons p rest ih =>
    simp only [List.map_cons, List.nodup_cons] at hnd
    rcases List.mem_cons.mp hmem with h | h
    · have h2 : u = p.userId := h
      subst h2
      have hrest : p.userId ∉ rest.map (fun q => q.userId) := hnd.1
      simp only [List.map_cons, beq_self_eq_true, if_true, eq_self_iff_true,
        bump_map_id _ rest hrest, List.sum_cons]
      omega
    · have hne : (p.userId == u) = false := by
        simp only [beq_eq_false_iff_ne, ne_eq]
        intro he
        apply hnd.1
        rw [he]
        exact h
      simp only [List.map_cons, hne, Bool.false_eq_true, if_false, List.sum_cons,
        ih hnd.2 h]
      omega

/-- C4 amended: once every seated player has an answer row for the question,
the check fires (returns `true`, switches the room to `results`) and the
bonus is applied if and only if exactly one player answered correctly: the
sole correct answerer's row is upgraded to 2 points with `wasOnlyCorrect`,
and the score total rises by exactly one extra increment; with zero or
several correct answers, players and answers are untouched.  (Idempotence
does NOT hold: re-running the check re-applies the score increment — see
the counterexample.) -/
theorem checkBonus_bonus_iff_unique_correct (room : ReverseRoom) (qIdx : Nat)
    (hall : room.players.length
      ≤ (room.answers.filter (fun a => a.questionIndex == qIdx)).length)
    (hnd : (room.players.map (fun p => p.userId)).Nodup)
    (hans : ∀ a ∈ room.answers, a.questionIndex = qIdx → a.isCorrect = true →
        a.userId ∈ room.players.map (fun p => p.userId)) :
    (checkAllAnswersAndCalculateBonus room qIdx).2 = true ∧
    (checkAllAnswersAndCalculateBonus room qIdx).1.status = ReverseStatus.results ∧
    ((((room.answers.filter (fun a => a.questionIndex == qIdx)).filter
        (fun a => a.isCorrect)).length = 1) →
      scoreSum (checkAllAnswersAndCalculateBonus room qIdx).1 = scoreSum room + 1 ∧
      (∀ a ∈ (checkAllAnswersAndCalculateBonus room qIdx).1.answers,
        a.questionIndex = qIdx → a.isCorrect = true →
          a.pointsEarned = 2 ∧ a.wasOnlyCorrect = true)) ∧
    ((((room.answers.filter (fun a => a.questionIndex == qIdx)).filter
        (fun a => a.isCorrect)).length ≠ 1) →
      (checkAllAnswersAndCalculateBonus room qIdx).1.players = room.players ∧
      (checkAllAnswersAndCalculateBonus room qIdx).1.answers = room.answers) := by
  have hnotlt : ¬ ((room.answers.filter (fun a => a.questionIndex == qIdx)).length
      < room.players.length) := not_lt.mpr hall
  by_cases hone : ((room.answers.filter (fun a => a.questionIndex == qIdx)).filter
      (fun a => a.isCorrect)).length = 1
  · obtain ⟨c, hc⟩ := List.length_eq_one.mp hone
    have hcmem : c ∈ (room.answers.filter
        (fun a => a.questionIndex == qIdx)).filter (fun a => a.isCorrect) := by
      rw [hc]; exact List.mem_singleton_self c
    have hc1 := List.mem_filter.mp hcmem
    have hc2 := List.mem_filter.mp hc1.1
    have hq : c.questionIndex = qIdx := by simpa using hc2.2
    have hcorr : c.isCorrect = true := hc1.2
    have humem : c.userId ∈ room.players.map (fun p => p.userId) :=
      hans c hc2.1 hq hcorr
    have hres : checkAllAnswersAndCalculateBonus room qIdx
        = ({ { room with
                answers := room.answers.map (fun a : ReverseAnswerRow =>
                  if a.questionIndex == qIdx && a.userId == c.userId then
                    { a with wasOnlyCorrect := true, pointsEarned := 2 } else a)
                players := room.players.map (fun p : ReversePlayer =>
                  if p.userId == c.userId then
                    { p with totalScore := p.totalScore + 1 } else p) } with
              status := ReverseStatus.results }, true) := by
      simp only [checkAllAnswersAndCalculateBonus]
      rw [if_neg hnotlt, hc,
        if_pos (show ([c] : List ReverseAnswerRow).length = 1 from by simp)]
      rfl
    refine ⟨by simp [hres], by simp [hres], fun _ => ⟨?_, ?_⟩,
      fun hcn => absurd hone hcn⟩
    · rw [hres]
      simp only [scoreSum]
      exact sum_scores_map_bump c.userId room.players hnd humem
    · intro a ha hq' hcorr'
      rw [hres] at ha
      simp only at ha
      obtain ⟨a0, ha0, rfl⟩ := List.mem_map.mp ha
      by_cases hcond : (a0.questionIndex == qIdx && a0.userId == c.userId) = true
      · simp [hcond]
      · exfalso
        simp only [hcond, Bool.false_eq_true, if_false] at hq' hcorr'
        have ha0mem : a0 ∈ (room.answers.filter
            (fun a => a.questionIndex == qIdx)).filter (fun a => a.isCorrect) :=
          List.mem_filter.mpr
            ⟨List.mem_filter.mpr ⟨ha0, by simp [hq']⟩, hcorr'⟩
        rw [hc] at ha0mem
        have ha0c : a0 = c := List.mem_singleton.mp ha0mem
        apply hcond
        simp [hq', ha0c, hq]
  · have hres2 : checkAllAnswersAndCalculateBonus room qIdx
        = ({ room with status := ReverseStatus.results }, true) := by
      simp only [checkAllAnswersAndCalculateBonus]
      rw [if_neg hnotlt, if_neg hone]
    refine ⟨by simp [hres2], by simp [hres2], fun hl => absurd hl hone,
      fun _ => ⟨by simp [hres2], by simp [hres2]⟩⟩

/-- Witness for amended C4: in `bonusRoom` (both players answered question 0,
u1 the sole correct answerer) the check fires, moves to `results`, and
raises the score total from 1 to 2. -/
theorem checkBonus_bonus_iff_unique_correct_witness :
    (checkAllAnswersAndCalculateBonus bonusRoom 0).2 = true ∧
    (checkAllAnswersAndCalculateBonus bonusRoom 0).1.status
      = ReverseStatus.results ∧
    scoreSum (checkAllAnswersAndCalculateBonus bonusRoom 0).1
      = scoreSum bonusRoom + 1 := by
  have h := checkBonus_bonus_iff_unique_correct bonusRoom 0
    (by decide) (by decide) (by decide)
  exact ⟨h.1, h.2.1, (h.2.2.1 (by decide)).1⟩

/-- Members surviving the dedup loop come from the input list. -/
theorem dedupLevelsById_subset :
    ∀ (ls : List LevelConfig) (seen : List Int) (l : LevelConfig),
      l ∈ dedupLevelsById ls seen → l ∈ ls := by
  intro ls
  induction ls with
  | nil => intro seen l h; cases h
  | cons x rest ih =>
    intro seen l h
    simp only [dedupLevelsById] at h
    by_cases hx : seen.contains x.id
    · rw [if_pos hx] at h
      exact List.mem_cons_of_mem x (ih _ l h)
    · rw [if_neg hx] at h
      rcases List.mem_cons.mp h with h1 | h1
      · exact h1 ▸ List.mem_cons_self x rest
      · exact List.mem_cons_of_mem x (ih _ l h1)

/-- A nonempty string has a first character. -/
theorem string_toList_cons (s : String) (h : s ≠ "") :
    ∃ c cs, s.toList = c :: cs := by
  cases hc : s.toList with
  | nil =>
    exfalso
    apply h
    apply String.ext
    simpa [String.toList] using hc
  | cons c cs => exact ⟨c, cs, rfl⟩

/-- When every element maps to an `ok` result, `mapM` itself is `ok`. -/
theorem mapM_ok {ε α β : Type} (f : α → Except ε β) (l : List α)
    (h : ∀ x ∈ l, ∃ y, f x = Except.ok y) :
    ∃ ys, l.mapM f = Except.ok ys := by
  induction l with
  | nil => exact ⟨[], rfl⟩
  | cons a rest ih =>
    obtain ⟨y, hy⟩ := h a (List.mem_cons_self a rest)
    obtain ⟨ys, hys⟩ := ih (fun x hx => h x (List.mem_cons_of_mem a hx))
    refine ⟨y :: ys, ?_⟩
    rw [List.mapM_cons, hy, hys]
    rfl

/-- Scoring succeeds whenever the candidate and target texts are nonempty. -/
theorem scoreWord_ok (candidate correct : String) (jitter : Rat)
    (hc : candidate ≠ "") (hk : correct ≠ "") :
    ∃ r, scoreWord candidate correct jitter = Except.ok r := by
  obtain ⟨c, cs, hcl⟩ := string_toList_cons candidate hc
  obtain ⟨k, ks, hkl⟩ := string_toList_cons correct hk
  simp only [scoreWord, hcl, hkl]
  exact ⟨_, rfl⟩

/-- C5 amended: the scheduler's normalization clamps every level to the sane
bounds (threshold 1..99, interval 0..3650 days) and never yields an empty
ladder; `generateWrongAnswers` succeeds whenever enough candidates exist
and all word texts are nonempty (with an empty word text it instead throws
a `TypeError` — see the counterexample); `selectRandomWords` succeeds
whenever the pool is large enough, failing only with the documented
`InsufficientWords` otherwise. -/
theorem pure_functions_no_throw :
    (∀ cfg : AppConfig,
      (normalizeConfig cfg).levels ≠ [] ∧
      ∀ l ∈ (normalizeConfig cfg).levels,
        1 ≤ l.promoteAfterCorrect ∧ l.promoteAfterCorrect ≤ 99 ∧
        0 ≤ l.intervalDays ∧ l.intervalDays ≤ 3650) ∧
    (∀ (target : WordOption) (pool : List WordOption) (count : Nat)
        (jit : Nat → Rat),
      target.word ≠ "" → (∀ w ∈ pool, w.word ≠ "") →
      count ≤ (pool.filter (fun w => w.id != target.id)).length →
      ∃ opts, generateWrongAnswers target pool count jit = Except.ok opts) ∧
    (∀ (α : Type) (pool : List α) (count : Nat) (shuffle : List α → List α),
      count ≤ pool.length →
      ∃ sel, selectRandomWords pool count shuffle = Except.ok sel) := by
  refine ⟨fun cfg => ⟨?_, ?_⟩, fun target pool count jit htgt hpool hcount => ?_,
    fun α pool count shuffle hcount => ?_⟩
  · simp only [normalizeConfig]
    split
    · decide
    · next hfalse =>
      intro heq
      exact hfalse (by simp [heq])
  · intro l hl
    simp only [normalizeConfig] at hl
    split at hl
    · simp only [defaultConfig] at hl
      fin_cases hl <;> decide
    · have hl2 := dedupLevelsById_subset _ _ _ hl
      have hl3 := (List.mem_insertionSort
        (fun a b : LevelConfig => a.id ≤ b.id)).mp hl2
      obtain ⟨l0, _, rfl⟩ := List.mem_map.mp hl3
      exact ⟨(clampInt_bounds (by norm_num)).1, (clampInt_bounds (by norm_num)).2,
        (clampInt_bounds (by norm_num)).1, (clampInt_bounds (by norm_num)).2⟩
  · simp only [generateWrongAnswers]
    rw [if_neg (not_lt.mpr hcount)]
    have hscores : ∀ p ∈ (pool.filter (fun w => w.id != target.id)).enum,
        ∃ y, (do
          let s ← scoreWord p.2.word target.word (jit p.1)
          pure (p.2, s) : Except JsError (WordOption × Rat)) = Except.ok y := by
      intro p hp
      have hpmem : p.2 ∈ pool.filter (fun w => w.id != target.id) :=
        List.getElem?_mem (List.mem_enum_iff_getElem?.mp hp)
      have hw : p.2.word ≠ "" := hpool p.2 (List.mem_filter.mp hpmem).1
      obtain ⟨r, hr⟩ := scoreWord_ok p.2.word target.word (jit p.1) hw htgt
      exact ⟨(p.2, r), by rw [hr]; rfl⟩
    obtain ⟨ys, hys⟩ := mapM_ok _ _ hscores
    exact ⟨_, by rw [hys]; rfl⟩
  · simp only [selectRandomWords]
    rw [if_neg (not_lt.mpr hcount)]
    exact ⟨_, rfl⟩

/-- Witness for amended C5: a concrete successful distractor generation, a
successful random selection, and the empty-config fallback to the default
ladder. -/
theorem pure_functions_no_throw_witness :
    (∃ opts, generateWrongAnswers { id := "t", word := "banana" }
      [ { id := "e", word := "pear" }, { id := "m", word := "mango" } ]
      2 (fun _ => 0) = Except.ok opts) ∧
    (∃ sel, selectRandomWords ([1, 2, 3] : List Nat) 2 id = Except.ok sel) ∧
    (normalizeConfig
      { levels := []
        wrongMakesImmediatelyDue := true
        wrongResetsStreak := true }).levels ≠ [] := by
  refine ⟨?_, ?_, ?_⟩
  · exact pure_functions_no_throw.2.1 _ _ 2 _ (by decide) (by decide) (by decide)
  · exact pure_functions_no_throw.2.2 Nat [1, 2, 3] 2 id (by decide)
  · exact (pure_functions_no_throw.1 _).1
